import Mathlib

set_option autoImplicit false

/-!
Shallow embedding of the core of pain.py (PAIN, a C++ project automation tool):
the library registry, the CMakeLists.txt managed-region synchronizer
(link_library), the vcpkg triplet resolver (detect_triplet), the build-cache
guard (cleanup_bad_vcpkg_config), and the manifest dependency operations
(add_library / the remove branch of main).

File contents are modelled as List Char; Python string primitives that the
source uses (split with exactly-two unpacking, substring membership,
str.replace, str.strip, str.lower restricted to ASCII, and the regex
search for the project declaration, with the regex word class restricted
to ASCII word characters) are given explicit executable models below.
-/

def lc (s : String) : List Char := s.data

/-- One entry of the KNOWN_TARGETS registry of pain.py.  A Python None
components field is modelled as the empty list (both are falsy in the
source's truth test). -/
structure LinkRule where
  packageName : String
  linkTargets : List String
  components : List String
  useConfig : Bool
deriving DecidableEq

/-- The KNOWN_TARGETS table of pain.py, verbatim. -/
def KNOWN_TARGETS : List (String × LinkRule) := [
  ("sfml", ⟨"SFML",
    ["SFML::Graphics", "SFML::Window", "SFML::System", "SFML::Audio", "SFML::Network"],
    ["Graphics", "Window", "System", "Audio", "Network"], true⟩),
  ("sdl2", ⟨"SDL2", ["SDL2::SDL2"], [], true⟩),
  ("fmt", ⟨"fmt", ["fmt::fmt"], [], true⟩),
  ("spdlog", ⟨"spdlog", ["spdlog::spdlog"], [], true⟩),
  ("raylib", ⟨"raylib", ["raylib"], [], true⟩),
  ("nlohmann-json", ⟨"nlohmann_json", ["nlohmann_json::nlohmann_json"], [], true⟩),
  ("opengl", ⟨"OpenGL", ["OpenGL::GL"], [], false⟩),
  ("glew", ⟨"GLEW", ["GLEW::GLEW"], [], true⟩),
  ("glfw3", ⟨"glfw3", ["glfw"], [], true⟩),
  ("imgui", ⟨"imgui", ["imgui::imgui"], [], true⟩),
  ("box2d", ⟨"box2d", ["box2d"], [], true⟩),
  ("glm", ⟨"glm", ["glm::glm"], [], true⟩)]

/-- Registry lookup by exact key, as Python dict lookup on KNOWN_TARGETS. -/
def find_known (key : String) : Option LinkRule :=
  (KNOWN_TARGETS.find? (fun p => p.1 == key)).map (fun p => p.2)

/-- Python str.lower, restricted to the ASCII range used by the registry keys. -/
def pyLowerChar (c : Char) : Char :=
  if 'A' ≤ c ∧ c ≤ 'Z' then Char.ofNat (c.toNat + 32) else c

def pyLower (s : String) : String := String.mk (s.data.map pyLowerChar)

/-- Python str.strip (leading and trailing whitespace removed). -/
def pyStrip (l : List Char) : List Char :=
  ((l.dropWhile Char.isWhitespace).reverse.dropWhile Char.isWhitespace).reverse

/-- normalize_lib_name of pain.py: lib.split('[')[0].strip().  Note: no case fold. -/
def normalize_lib_name (lib : String) : String :=
  String.mk (pyStrip (lib.data.takeWhile (fun c => c ≠ '[')))

/-- Python str.replace: replace every non-overlapping occurrence of pat,
scanning left to right.  Fuel-structural so that it evaluates by kernel
reduction; the wrapper supplies fuel equal to the list length, which is
always sufficient since every step consumes at least one character. -/
def pyReplaceFuel (pat rep : List Char) : Nat → List Char → List Char
  | 0, l => l
  | _ + 1, [] => []
  | fuel + 1, c :: r =>
    if pat ≠ [] ∧ pat.isPrefixOf (c :: r) then
      rep ++ pyReplaceFuel pat rep fuel ((c :: r).drop pat.length)
    else c :: pyReplaceFuel pat rep fuel r

def pyReplace (pat rep l : List Char) : List Char := pyReplaceFuel pat rep l.length l

/-- The find_package statement rendered by link_library of pain.py.
For a registry hit this is the f-string
find_package(pkg config_kw REQUIRED comp_str) followed by the source's
replace("  ", " ") cleanup; otherwise the default-rule string. -/
def render_find_pkg (lib : String) : List Char :=
  match find_known (pyLower lib) with
  | none => lc ("find_package(" ++ lib ++ " CONFIG REQUIRED)")
  | some r =>
    let comp_str : String :=
      if r.components = [] then "" else "COMPONENTS " ++ String.intercalate " " r.components
    let config_kw : String := if r.useConfig then "CONFIG" else ""
    pyReplace (lc "  ") (lc " ")
      (lc ("find_package(" ++ r.packageName ++ " " ++ config_kw ++ " REQUIRED " ++ comp_str ++ ")"))

/-- The target_link_libraries statement rendered by link_library of pain.py. -/
def render_link_libs (projectName : List Char) (lib : String) : List Char :=
  match find_known (pyLower lib) with
  | none =>
    lc "target_link_libraries(" ++ projectName ++ lc (" PRIVATE " ++ lib ++ "::" ++ lib ++ ")")
  | some r =>
    lc "target_link_libraries(" ++ projectName
      ++ lc (" PRIVATE " ++ String.intercalate " " r.linkTargets ++ ")")

/-- First-occurrence split: some (a, b) when l = a ++ sep ++ b with the
occurrence of sep at a the leftmost one; none when sep does not occur.
This models one step of Python str.split. -/
def splitFirst (sep : List Char) : List Char → Option (List Char × List Char)
  | [] => if sep = [] then some ([], []) else none
  | c :: r =>
    if sep.isPrefixOf (c :: r) then some ([], (c :: r).drop sep.length)
    else
      match splitFirst sep r with
      | some (a, b) => some (c :: a, b)
      | none => none

/-- Python substring membership (the in operator on str). -/
def containsSub (sep l : List Char) : Bool := (splitFirst sep l).isSome

/-- Python two-element unpacking of str.split(sep): succeeds exactly when sep
occurs exactly once (scanning non-overlapping, left to right); a different
occurrence count raises ValueError, modelled as none. -/
def splitOnce (sep l : List Char) : Option (List Char × List Char) :=
  match splitFirst sep l with
  | none => none
  | some (a, b) => if containsSub sep b then none else some (a, b)

def startMarker : List Char := lc "# --- PAIN DEPENDENCIES START ---"

def endMarker : List Char := lc "# --- PAIN DEPENDENCIES END ---"

def nlc : List Char := lc "\n"

/-- ASCII fragment of the regex word class used in project\((\w+)\). -/
def isWordChar (c : Char) : Bool := c.isAlphanum || c == '_'

/-- Attempt of the regex project\((\w+)\) at the start of l: the literal
project( followed by a maximal nonempty word-character run followed by a
closing parenthesis.  Greedy matching of the word class never backtracks
usefully here because a word character is never the closing parenthesis. -/
def matchProjectAt (l : List Char) : Option (List Char) :=
  if (lc "project(").isPrefixOf l then
    let rest := l.drop 8
    let run := rest.takeWhile isWordChar
    if run ≠ [] ∧ (rest.drop run.length).head? = some ')' then some run else none
  else none

/-- re.search of project\((\w+)\): leftmost match, returning group 1. -/
def findProjectName : List Char → Option (List Char)
  | [] => none
  | c :: r =>
    match matchProjectAt (c :: r) with
    | some run => some run
    | none => findProjectName r

/-- link_library of pain.py as a transformation of the CMakeLists.txt file
content.  The result is the file content after the call: none models an
uncaught Python exception, which leaves the file unchanged (the regex search
failing with AttributeError, or a marker occurrence count other than one
failing the two-element unpacking with ValueError).  In the duplicate case
the function returns before writing, so the original content is the file
content even when the local variable had markers appended. -/
def link_library (lib : String) (content : List Char) : Option (List Char) :=
  match findProjectName content with
  | none => none
  | some pn =>
    let find_pkg := render_find_pkg lib
    let link_libs := render_link_libs pn lib
    let content2 :=
      if containsSub startMarker content then content
      else content ++ nlc ++ startMarker ++ nlc ++ endMarker ++ nlc
    if containsSub find_pkg content2 then some content
    else
      match splitOnce startMarker content2 with
      | none => none
      | some (pre, post) =>
        match splitOnce endMarker post with
        | none => none
        | some (block, rest) =>
          some (pre ++ startMarker ++ (block ++ nlc ++ find_pkg ++ nlc ++ link_libs)
                ++ endMarker ++ rest)

/-- File content after a link_library call: an uncaught exception leaves the
previous content in place. -/
def link_library_apply (lib : String) (content : List Char) : List Char :=
  (link_library lib content).getD content

/-- Host OS as reported by platform.system(). -/
inductive HostOS
  | windows
  | linux
  | darwin
  | other (name : String)

/-- Which toolchain executables command_exists finds on PATH. -/
structure Probe where
  cl : Bool
  gpp : Bool
  mingw32_make : Bool
  clangpp : Bool

/-- detect_triplet of pain.py; none models the fatal() calls (no compiler /
unsupported platform), which terminate the process. -/
def detect_triplet (os : HostOS) (p : Probe) : Option String :=
  match os with
  | .windows =>
    if p.cl then some "x64-windows"
    else if p.gpp || p.mingw32_make then some "x64-mingw-dynamic"
    else if p.clangpp then some "x64-windows"
    else none
  | .linux => some "x64-linux"
  | .darwin => some "x64-osx"
  | .other _ => none

def tripletToken : List Char := lc "VCPKG_TARGET_TRIPLET"

/-- Build-directory branch of cleanup_bad_vcpkg_config of pain.py: the build
directory is removed exactly when build/CMakeCache.txt exists (cache = some
content), the literal VCPKG_TARGET_TRIPLET occurs in its text, and the freshly
detected triplet does not occur anywhere in its text.  Both tests are plain
substring membership on the whole cache text. -/
def cleanup_build_removes (cache : Option (List Char)) (triplet : List Char) : Bool :=
  match cache with
  | none => false
  | some content => containsSub tripletToken content && !containsSub triplet content

/-- Top-level shape of a parsed vcpkg-configuration.json, with exactly the
structure the source's membership test distinguishes: an object (its key
list), an array (its string elements, the only ones a string membership test
can match), a string, or a scalar (number, boolean, null), on which the
Python in operator raises TypeError. -/
inductive PyJsonTop
  | dict (keys : List String)
  | arr (strElems : List String)
  | str (s : String)
  | scalar
deriving DecidableEq

/-- Python: key in data, for a parsed JSON document; none models TypeError. -/
def py_membership (key : String) (data : PyJsonTop) : Option Bool :=
  match data with
  | .dict keys => some (keys.contains key)
  | .arr elems => some (elems.contains key)
  | .str s => some (containsSub (lc key) (lc s))
  | .scalar => none

/-- vcpkg-configuration.json branch of cleanup_bad_vcpkg_config of pain.py.
cfg is none when the file does not exist, some none when json.loads raises,
and some (some d) when it parses to d.  The bare except also catches the
TypeError a scalar raises in the membership test, so those runs unlink too.
Returns whether the file is deleted. -/
def cleanup_config_removes (cfg : Option (Option PyJsonTop)) : Bool :=
  match cfg with
  | none => false
  | some none => true
  | some (some d) =>
    match py_membership "default-triplet" d with
    | some b => b
    | none => true

/-- Whether d is an object carrying a default-triplet key, the condition the
specification describes for removal of a parsed configuration. -/
def hasDefaultTripletKey (d : PyJsonTop) : Bool :=
  match d with
  | .dict keys => keys.contains "default-triplet"
  | _ => false

/-- One element of the dependencies array of vcpkg.json: either a bare string
or an object; for an object the source reads .get("name", ""), so only the
name (with default "") matters here. -/
inductive Dep
  | str (s : String)
  | obj (name : String)
deriving DecidableEq

def depName : Dep → String
  | .str s => s
  | .obj n => n

/-- The vcpkg.json dependency update of add_library of pain.py: append the
raw requested string unless some entry already has the same
normalize_lib_name image. -/
def add_library_deps (deps : List Dep) (lib : String) : List Dep :=
  if deps.any (fun d => normalize_lib_name (depName d) == normalize_lib_name lib) then deps
  else deps ++ [Dep.str lib]

/-- The dependency filter of the remove branch of main() of pain.py. -/
def remove_library_deps (deps : List Dep) (lib : String) : List Dep :=
  deps.filter (fun d => !(normalize_lib_name (depName d) == normalize_lib_name lib))

/-- Process-terminating outcomes of the dependency-mutating commands. -/
inductive PainErr
  | ProjectNotFound
  | PyTypeError
deriving DecidableEq

/-- The add command of pain.py at manifest level, with root the result of
find_project_root(): a missing root hits the explicit
fatal("Not in a PAIN project.") guard before any file access. -/
def add_library_cmd (root : Option (List Dep)) (lib : String) : Except PainErr (List Dep) :=
  match root with
  | none => .error .ProjectNotFound
  | some deps => .ok (add_library_deps deps lib)

/-- The remove branch of main() of pain.py at manifest level.  It has no
guard: with root = None the expression root / "vcpkg.json" raises an uncaught
TypeError before any file access. -/
def remove_library_cmd (root : Option (List Dep)) (lib : String) : Except PainErr (List Dep) :=
  match root with
  | none => .error .PyTypeError
  | some deps => .ok (remove_library_deps deps lib)

/-- The find_package statement shape the code actually produces for a
registry rule, written directly from the specification's template plus the
one deviation the code forces: when the components list is empty a single
extra space is left before the closing parenthesis. -/
def spec_find_shape (r : LinkRule) : List Char :=
  lc ("find_package(" ++ r.packageName
    ++ (if r.useConfig then " CONFIG" else "")
    ++ " REQUIRED"
    ++ (if r.components = [] then " "
        else " COMPONENTS " ++ String.intercalate " " r.components)
    ++ ")")

/-- The find_package statement shape exactly as the specification claims it,
with no extra whitespace anywhere. -/
def claimed_find_shape (r : LinkRule) : List Char :=
  lc ("find_package(" ++ r.packageName
    ++ (if r.useConfig then " CONFIG" else "")
    ++ " REQUIRED"
    ++ (if r.components = [] then ""
        else " COMPONENTS " ++ String.intercalate " " r.components)
    ++ ")")

theorem isPrefixOf_exists_append :
    ∀ {l1 l2 : List Char}, l1.isPrefixOf l2 = true → ∃ t, l1 ++ t = l2 := by
  intro l1
  induction l1 with
  | nil => intro l2 _; exact ⟨l2, rfl⟩
  | cons a l' ih =>
    intro l2 h
    cases l2 with
    | nil => simp [List.isPrefixOf] at h
    | cons b l2' =>
      simp only [List.isPrefixOf, Bool.and_eq_true, beq_iff_eq] at h
      obtain ⟨hab, h2⟩ := h
      obtain ⟨t, ht⟩ := ih h2
      exact ⟨t, by rw [hab, List.cons_append, ht]⟩

theorem isPrefixOf_append_self : ∀ (l t : List Char), l.isPrefixOf (l ++ t) = true := by
  intro l
  induction l with
  | nil => intro t; simp [List.isPrefixOf]
  | cons c l' ih => intro t; simp [List.isPrefixOf, ih t]

theorem splitFirst_some_append {sep : List Char} :
    ∀ {l a b : List Char}, splitFirst sep l = some (a, b) → l = a ++ sep ++ b := by
  intro l
  induction l with
  | nil =>
    intro a b h
    simp only [splitFirst] at h
    split at h
    · next hs =>
      obtain ⟨ha, hb⟩ := Prod.mk.injEq .. ▸ Option.some.injEq .. ▸ h
      simp [hs, ← ha, ← hb]
    · exact absurd h (by simp)
  | cons c r ih =>
    intro a b h
    simp only [splitFirst] at h
    split at h
    · next hp =>
      obtain ⟨t, ht⟩ := isPrefixOf_exists_append hp
      obtain ⟨ha, hb⟩ := Prod.mk.injEq .. ▸ Option.some.injEq .. ▸ h
      subst ha
      rw [← hb, ← ht, List.nil_append, List.drop_left]
    · next hp =>
      cases hsf : splitFirst sep r with
      | none => rw [hsf] at h; exact absurd h (by simp)
      | some p =>
        obtain ⟨a', b'⟩ := p
        rw [hsf] at h
        obtain ⟨ha, hb⟩ := Prod.mk.injEq .. ▸ Option.some.injEq .. ▸ h
        subst hb
        rw [← ha, ih hsf]
        simp

theorem containsSub_of_eq_append {sep : List Char} :
    ∀ {u : List Char} {l v : List Char}, l = u ++ sep ++ v → containsSub sep l = true := by
  intro u
  induction u with
  | nil =>
    intro l v h
    subst h
    cases sep with
    | nil =>
      cases v with
      | nil => rfl
      | cons c r => simp [containsSub, splitFirst, List.isPrefixOf]
    | cons s ss =>
      have hp := isPrefixOf_append_self (s :: ss) v
      simp only [List.nil_append]
      simp [containsSub, splitFirst, hp]
  | cons c u' ih =>
    intro l v h
    subst h
    simp only [containsSub, List.cons_append, splitFirst]
    split
    · rfl
    · have hr : containsSub sep (u' ++ sep ++ v) = true := ih rfl
      cases hsf : splitFirst sep (u' ++ sep ++ v) with
      | none => rw [containsSub, hsf] at hr; exact absurd hr (by simp)
      | some p => obtain ⟨a, b⟩ := p; rfl

theorem containsSub_iff {sep l : List Char} :
    containsSub sep l = true ↔ ∃ u v, l = u ++ sep ++ v := by
  constructor
  · intro h
    cases hsf : splitFirst sep l with
    | none => rw [containsSub, hsf] at h; exact absurd h (by simp)
    | some p => exact ⟨p.1, p.2, splitFirst_some_append (by rw [hsf])⟩
  · rintro ⟨u, v, h⟩
    exact containsSub_of_eq_append h

theorem containsSub_sandwich (sep a b : List Char) : containsSub sep (a ++ sep ++ b) = true :=
  containsSub_of_eq_append rfl

theorem containsSub_cons_false {sep : List Char} {c : Char} {r : List Char}
    (h : containsSub sep (c :: r) = false) :
    sep.isPrefixOf (c :: r) = false ∧ containsSub sep r = false := by
  rw [containsSub, splitFirst] at h
  by_cases hp : sep.isPrefixOf (c :: r)
  · rw [if_pos hp] at h
    exact absurd h (by simp)
  · have hb : sep.isPrefixOf (c :: r) = false := by
      cases hb : sep.isPrefixOf (c :: r)
      · rfl
      · exact absurd hb hp
    refine ⟨hb, ?_⟩
    rw [if_neg hp] at h
    cases hsf : splitFirst sep r with
    | none => rw [containsSub, hsf]; rfl
    | some p =>
      obtain ⟨a, b⟩ := p
      rw [hsf] at h
      exact absurd h (by simp)


theorem splitFirst_cons (sep : List Char) (c : Char) (r : List Char) :
    splitFirst sep (c :: r) =
      if sep.isPrefixOf (c :: r) then some ([], (c :: r).drop sep.length)
      else
        match splitFirst sep r with
        | some (a, b) => some (c :: a, b)
        | none => none := rfl

theorem isPrefixOf_append_cons :
    ∀ (l s : List Char) (c : Char) (z : List Char),
      s.isPrefixOf (l ++ c :: z) = true → s.isPrefixOf l = true ∨ c ∈ s := by
  intro l
  induction l with
  | nil =>
    intro s c z h
    cases s with
    | nil => exact Or.inl rfl
    | cons d s' =>
      simp only [List.nil_append, List.isPrefixOf, Bool.and_eq_true, beq_iff_eq] at h
      exact Or.inr (h.1 ▸ List.mem_cons_self d s')
  | cons a l' ih =>
    intro s c z h
    cases s with
    | nil => exact Or.inl rfl
    | cons d s' =>
      simp only [List.cons_append, List.isPrefixOf, Bool.and_eq_true, beq_iff_eq] at h
      obtain ⟨hda, h2⟩ := h
      rcases ih s' c z h2 with hp | hm
      · exact Or.inl (by simp [List.isPrefixOf, hda, hp])
      · exact Or.inr (List.mem_cons_of_mem d hm)

theorem splitFirst_after_boundary :
    ∀ (l s : List Char) (c : Char) (z : List Char),
      c ∉ s → containsSub s l = false →
      splitFirst s (l ++ c :: (s ++ z)) = some (l ++ [c], z) := by
  intro l
  induction l with
  | nil =>
    intro s c z hc hl
    cases s with
    | nil => simp [containsSub, splitFirst] at hl
    | cons d s' =>
      have hdc : (d == c) = false := by
        have hne : c ≠ d := fun he => hc (he ▸ List.mem_cons_self d s')
        exact beq_eq_false_iff_ne.mpr (Ne.symm hne)
      have hp : (d :: s').isPrefixOf (d :: (s' ++ z)) = true :=
        isPrefixOf_append_self (d :: s') z
      have hd : List.drop (d :: s').length (d :: (s' ++ z)) = z :=
        List.drop_left (d :: s') z
      have hcond : (d :: s').isPrefixOf (c :: d :: (s' ++ z)) = false := by
        simp [List.isPrefixOf, hdc]
      simp only [List.nil_append, List.cons_append]
      rw [splitFirst_cons]
      simp only [hcond, Bool.false_eq_true, if_false]
      rw [splitFirst_cons]
      simp only [hp, if_true, hd]
  | cons a l' ih =>
    intro s c z hc hl
    obtain ⟨hnp, hl'⟩ := containsSub_cons_false hl
    have hrec := ih s c z hc hl'
    have hpf : s.isPrefixOf (a :: (l' ++ c :: (s ++ z))) = false := by
      cases hb : s.isPrefixOf (a :: (l' ++ c :: (s ++ z))) with
      | false => rfl
      | true =>
        have hb2 : s.isPrefixOf ((a :: l') ++ c :: (s ++ z)) = true := by
          simpa using hb
        rcases isPrefixOf_append_cons (a :: l') s c (s ++ z) hb2 with hp | hm
        · rw [hnp] at hp; exact absurd hp (by simp)
        · exact absurd hm hc
    simp only [List.cons_append]
    rw [splitFirst_cons]
    simp only [hpf, Bool.false_eq_true, if_false]
    rw [hrec]

theorem splitOnce_some_append {sep l a b : List Char}
    (h : splitOnce sep l = some (a, b)) : l = a ++ sep ++ b ∧ containsSub sep b = false := by
  rw [splitOnce] at h
  split at h
  · exact absurd h (by simp)
  · next a' b' heq =>
    split at h
    · exact absurd h (by simp)
    · next hcb =>
      obtain ⟨ha, hb⟩ := Prod.mk.injEq .. ▸ Option.some.injEq .. ▸ h
      subst ha; subst hb
      exact ⟨splitFirst_some_append heq, by simpa using hcb⟩

theorem splitOnce_contains {sep l : List Char} {p : List Char × List Char}
    (h : splitOnce sep l = some p) : containsSub sep l = true := by
  rw [splitOnce] at h
  split at h
  · exact absurd h (by simp)
  · next a' b' heq => rw [containsSub, heq]; rfl

theorem splitOnce_marker_append {content : List Char}
    (h : containsSub startMarker content = false) :
    splitOnce startMarker (content ++ nlc ++ startMarker ++ nlc ++ endMarker ++ nlc)
      = some (content ++ nlc, nlc ++ endMarker ++ nlc) := by
  have hn : nlc = ['\n'] := rfl
  have hb := splitFirst_after_boundary content startMarker '\n' (nlc ++ endMarker ++ nlc)
    (by decide) h
  have hshape : content ++ nlc ++ startMarker ++ nlc ++ endMarker ++ nlc
      = content ++ '\n' :: (startMarker ++ (nlc ++ endMarker ++ nlc)) := by
    simp [hn, List.append_assoc]
  have hnomore : containsSub startMarker (nlc ++ endMarker ++ nlc) = false := by decide
  rw [splitOnce, hshape, hb]
  simp [hn]
  decide

theorem splitOnce_end_concrete : splitOnce endMarker (nlc ++ endMarker ++ nlc) = some (nlc, nlc) := by
  decide

theorem link_library_already_present (lib : String) (c' : List Char)
    (hsm : containsSub startMarker c' = true)
    (hfp : containsSub (render_find_pkg lib) c' = true) :
    link_library lib c' = some c' ∨ link_library lib c' = none := by
  cases hpn2 : findProjectName c' with
  | none => right; rw [link_library, hpn2]
  | some pn2 =>
    left
    rw [link_library, hpn2]
    simp only []
    rw [if_pos hsm, if_pos hfp]

theorem link_library_fixed (lib : String) (content c' : List Char)
    (h : link_library lib content = some c') :
    link_library lib c' = some c' ∨ link_library lib c' = none := by
  cases hpn : findProjectName content with
  | none => rw [link_library, hpn] at h; exact absurd h (by simp)
  | some pn =>
    rw [link_library, hpn] at h
    simp only [] at h
    by_cases hsm : containsSub startMarker content
    · rw [if_pos hsm] at h
      by_cases hdup : containsSub (render_find_pkg lib) content
      · rw [if_pos hdup] at h
        have hc := Option.some.inj h
        subst hc
        exact link_library_already_present lib content hsm hdup
      · rw [if_neg hdup] at h
        cases hs1 : splitOnce startMarker content with
        | none => rw [hs1] at h; exact absurd h (by simp)
        | some p1 =>
          obtain ⟨pre, post⟩ := p1
          rw [hs1] at h
          simp only [] at h
          cases hs2 : splitOnce endMarker post with
          | none => rw [hs2] at h; exact absurd h (by simp)
          | some p2 =>
            obtain ⟨block, rest⟩ := p2
            rw [hs2] at h
            simp only [] at h
            have hc := Option.some.inj h
            refine link_library_already_present lib c'
              (containsSub_of_eq_append (u := pre)
                (v := (block ++ nlc ++ render_find_pkg lib ++ nlc ++ render_link_libs pn lib)
                  ++ endMarker ++ rest) ?_)
              (containsSub_of_eq_append (u := pre ++ startMarker ++ block ++ nlc)
                (v := nlc ++ render_link_libs pn lib ++ endMarker ++ rest) ?_)
            · rw [← hc]; simp [List.append_assoc]
            · rw [← hc]; simp [List.append_assoc]
    · rw [if_neg hsm] at h
      by_cases hdup : containsSub (render_find_pkg lib)
          (content ++ nlc ++ startMarker ++ nlc ++ endMarker ++ nlc)
      · rw [if_pos hdup] at h
        have hc := Option.some.inj h
        subst hc
        left
        rw [link_library, hpn]
        simp only []
        rw [if_neg hsm, if_pos hdup]
      · rw [if_neg hdup] at h
        cases hs1 : splitOnce startMarker
            (content ++ nlc ++ startMarker ++ nlc ++ endMarker ++ nlc) with
        | none => rw [hs1] at h; exact absurd h (by simp)
        | some p1 =>
          obtain ⟨pre, post⟩ := p1
          rw [hs1] at h
          simp only [] at h
          cases hs2 : splitOnce endMarker post with
          | none => rw [hs2] at h; exact absurd h (by simp)
          | some p2 =>
            obtain ⟨block, rest⟩ := p2
            rw [hs2] at h
            simp only [] at h
            have hc := Option.some.inj h
            refine link_library_already_present lib c'
              (containsSub_of_eq_append (u := pre)
                (v := (block ++ nlc ++ render_find_pkg lib ++ nlc ++ render_link_libs pn lib)
                  ++ endMarker ++ rest) ?_)
              (containsSub_of_eq_append (u := pre ++ startMarker ++ block ++ nlc)
                (v := nlc ++ render_link_libs pn lib ++ endMarker ++ rest) ?_)
            · rw [← hc]; simp [List.append_assoc]
            · rw [← hc]; simp [List.append_assoc]

/-- Claim C4: running link_library twice for the same dependency leaves the
file content byte-identical to running it once, on every file content,
including the crash and no-op paths (an uncaught exception leaves the file
unchanged, so a second identical run reproduces the same file). -/
theorem link_library_idempotent (lib : String) (content : List Char) :
    link_library_apply lib (link_library_apply lib content) = link_library_apply lib content := by
  cases hl : link_library lib content with
  | none => simp [link_library_apply, hl]
  | some c' =>
    rcases link_library_fixed lib content c' hl with h2 | h2 <;>
      simp [link_library_apply, hl, h2]

/-- Claim C3 (amended): when link_library completes without an exception, no
byte outside the managed-region markers changes.  With markers present
exactly once each, the text before the start marker and after the end marker
is reproduced verbatim; with the start marker absent the previous file
content survives as a prefix of the output (the call either appends a fresh
managed region holding the new pair at end of file, or, when the rendered
find-statement already occurs somewhere, leaves the file byte-identical
without appending any region). -/
theorem link_library_frame (lib : String) (content out : List Char)
    (h : link_library lib content = some out) :
    (∀ pre post block rest,
        splitOnce startMarker content = some (pre, post) →
        splitOnce endMarker post = some (block, rest) →
        ∃ mid, out = pre ++ startMarker ++ mid ++ endMarker ++ rest)
    ∧ (containsSub startMarker content = false → content <+: out) := by
  cases hpn : findProjectName content with
  | none => rw [link_library, hpn] at h; exact absurd h (by simp)
  | some pn =>
    rw [link_library, hpn] at h
    simp only [] at h
    by_cases hsm : containsSub startMarker content
    · rw [if_pos hsm] at h
      constructor
      · intro pre post block rest hs1 hs2
        by_cases hdup : containsSub (render_find_pkg lib) content
        · rw [if_pos hdup] at h
          have hc := Option.some.inj h
          refine ⟨block, ?_⟩
          rw [← hc, (splitOnce_some_append hs1).1, (splitOnce_some_append hs2).1]
          simp [List.append_assoc]
        · rw [if_neg hdup, hs1] at h
          simp only [] at h
          rw [hs2] at h
          simp only [] at h
          have hc := Option.some.inj h
          exact ⟨block ++ nlc ++ render_find_pkg lib ++ nlc ++ render_link_libs pn lib, hc.symm⟩
      · intro hnosm
        rw [hnosm] at hsm
        exact absurd hsm (by simp)
    · rw [if_neg hsm] at h
      have hsmf : containsSub startMarker content = false := by
        cases hb : containsSub startMarker content
        · rfl
        · exact absurd hb hsm
      constructor
      · intro pre post block rest hs1 hs2
        rw [splitOnce_contains hs1] at hsmf
        exact absurd hsmf (by simp)
      · intro _
        by_cases hdup : containsSub (render_find_pkg lib)
            (content ++ nlc ++ startMarker ++ nlc ++ endMarker ++ nlc)
        · rw [if_pos hdup] at h
          have hc := Option.some.inj h
          rw [← hc]
        · rw [if_neg hdup] at h
          rw [splitOnce_marker_append hsmf] at h
          simp only [] at h
          rw [splitOnce_end_concrete] at h
          simp only [] at h
          have hc := Option.some.inj h
          refine ⟨nlc ++ startMarker
            ++ (nlc ++ nlc ++ render_find_pkg lib ++ nlc ++ render_link_libs pn lib)
            ++ endMarker ++ nlc, ?_⟩
          rw [← hc]
          simp [List.append_assoc]

/-- Claim C5 (amended): when the rendered find-statement occurs nowhere in
the whole file (the source checks the entire content, not only the managed
region), and the markers each occur exactly once, link_library appends the
rendered (find-statement, link-statement) pair at the end of the managed
region, keeping the previous region text verbatim as a prefix of the new
region and leaving everything outside the markers untouched. -/
theorem link_library_appends_pair (lib : String) (content pre post block rest pn : List Char)
    (hpn : findProjectName content = some pn)
    (hs1 : splitOnce startMarker content = some (pre, post))
    (hs2 : splitOnce endMarker post = some (block, rest))
    (hnf : containsSub (render_find_pkg lib) content = false) :
    link_library lib content
      = some (pre ++ startMarker
          ++ (block ++ nlc ++ render_find_pkg lib ++ nlc ++ render_link_libs pn lib)
          ++ endMarker ++ rest) := by
  rw [link_library, hpn]
  simp only []
  rw [if_pos (splitOnce_contains hs1)]
  rw [if_neg (by simp [hnf])]
  rw [hs1]
  simp only []
  rw [hs2]

/-- Claim C1 (amended): for every registry entry the rendered find-statement
is find_package(pkg [CONFIG] REQUIRED [COMPONENTS ...]) except that when the
components list is empty one extra space is left before the closing
parenthesis (the double-space cleanup collapses the gap left by an absent
CONFIG keyword but not the one left by absent components). -/
theorem render_find_pkg_registry_shape :
    ∀ p ∈ KNOWN_TARGETS, render_find_pkg p.1 = spec_find_shape p.2 := by decide

theorem render_find_pkg_registry_shape_witness :
    render_find_pkg "sfml" = spec_find_shape ⟨"SFML",
      ["SFML::Graphics", "SFML::Window", "SFML::System", "SFML::Audio", "SFML::Network"],
      ["Graphics", "Window", "System", "Audio", "Network"], true⟩ :=
  render_find_pkg_registry_shape ("sfml", ⟨"SFML",
      ["SFML::Graphics", "SFML::Window", "SFML::System", "SFML::Audio", "SFML::Network"],
      ["Graphics", "Window", "System", "Audio", "Network"], true⟩) (by decide)

/-- Claim C1 counterexample: sdl2 is in the registry under its normalized
name, yet the rendered statement carries a trailing space before the closing
parenthesis, so it is not of the exact claimed shape. -/
theorem render_find_pkg_sdl2_cex :
    (KNOWN_TARGETS.find? (fun p => p.1 == normalize_lib_name "sdl2")).isSome = true
    ∧ render_find_pkg "sdl2" = lc "find_package(SDL2 CONFIG REQUIRED )"
    ∧ claimed_find_shape ⟨"SDL2", ["SDL2::SDL2"], [], true⟩
        = lc "find_package(SDL2 CONFIG REQUIRED)"
    ∧ render_find_pkg "sdl2" ≠ claimed_find_shape ⟨"SDL2", ["SDL2::SDL2"], [], true⟩ := by
  decide

/-- Claim C2 (amended): the build-directory guard decides by substring
search over the whole cache text.  When the cache records the fingerprint
token VCPKG_TARGET_TRIPLET=A and the freshly resolved identity B occurs
nowhere in the cache text, the build directory is deleted; when A equals B
the directory is always left untouched.  (When A differs from B but B
happens to occur elsewhere in the cache text, the directory is kept; see the
counterexample.) -/
theorem cleanup_build_fingerprint_behavior (os : HostOS) (p : Probe)
    (content A : List Char) (B : String)
    (_hB : detect_triplet os p = some B)
    (hA : containsSub (tripletToken ++ lc "=" ++ A) content = true) :
    (containsSub (lc B) content = false → cleanup_build_removes (some content) (lc B) = true)
    ∧ (A = lc B → cleanup_build_removes (some content) (lc B) = false) := by
  have htok : containsSub tripletToken content = true := by
    rcases containsSub_iff.mp hA with ⟨u, v, huv⟩
    exact containsSub_of_eq_append (u := u) (v := lc "=" ++ A ++ v)
      (by rw [huv]; simp [List.append_assoc])
  have hval : ∀ t : List Char, cleanup_build_removes (some content) t
      = (containsSub tripletToken content && !containsSub t content) := fun t => rfl
  constructor
  · intro hBnot
    rw [hval, htok, hBnot]
    rfl
  · intro hAB
    subst hAB
    have hBin : containsSub (lc B) content = true := by
      rcases containsSub_iff.mp hA with ⟨u, v, huv⟩
      exact containsSub_of_eq_append (u := u ++ tripletToken ++ lc "=") (v := v)
        (by rw [huv]; simp [List.append_assoc])
    rw [hval, hBin]
    simp

theorem cleanup_build_fingerprint_behavior_witness :
    cleanup_build_removes (some (lc "VCPKG_TARGET_TRIPLET=x64-osx\n")) (lc "x64-linux") = true :=
  (cleanup_build_fingerprint_behavior HostOS.linux ⟨false, true, false, false⟩
    (lc "VCPKG_TARGET_TRIPLET=x64-osx\n") (lc "x64-osx") "x64-linux" rfl (by decide)).1
    (by decide)

/-- Claim C2 counterexample: the cache records fingerprint A (mingw) and the
fresh identity B (windows-native) differs, yet the directory is kept because
B occurs elsewhere in the cache text and the guard only does substring
search. -/
theorem cleanup_build_substring_cex :
    containsSub (tripletToken ++ lc "=" ++ lc "x64-mingw-dynamic")
      (lc "VCPKG_TARGET_TRIPLET=x64-mingw-dynamic\n# last host: x64-windows\n") = true
    ∧ lc "x64-mingw-dynamic" ≠ lc "x64-windows"
    ∧ detect_triplet HostOS.windows ⟨true, false, false, false⟩ = some "x64-windows"
    ∧ cleanup_build_removes
        (some (lc "VCPKG_TARGET_TRIPLET=x64-mingw-dynamic\n# last host: x64-windows\n"))
        (lc "x64-windows") = false := by
  decide

/-- Claim C7 (amended): a cache from which no fingerprint token can be read
(the literal VCPKG_TARGET_TRIPLET occurs nowhere in it) is left in place:
the guard does not delete the build directory in that case, for any freshly
resolved triplet. -/
theorem cleanup_build_no_token_keeps (content triplet : List Char)
    (h : containsSub tripletToken content = false) :
    cleanup_build_removes (some content) triplet = false := by
  have hval : cleanup_build_removes (some content) triplet
      = (containsSub tripletToken content && !containsSub triplet content) := rfl
  rw [hval, h, Bool.false_and]

theorem cleanup_build_no_token_keeps_witness :
    cleanup_build_removes (some (lc "# CMake cache with no fingerprint")) (lc "x64-linux")
      = false :=
  cleanup_build_no_token_keeps (lc "# CMake cache with no fingerprint") (lc "x64-linux")
    (by decide)

/-- Claim C7 counterexample: the generated cache exists but is malformed (no
well-formed target-identity token can be read from it); the claim requires
deletion, yet the guard keeps the build directory. -/
theorem cleanup_build_no_token_cex :
    containsSub tripletToken (lc "-- malformed cache text --") = false
    ∧ cleanup_build_removes (some (lc "-- malformed cache text --")) (lc "x64-linux")
        = false := by
  decide

theorem takeWhile_append_of_forall {p : Char → Bool} :
    ∀ (xs : List Char), (∀ x ∈ xs, p x = true) → ∀ (y : Char), p y = false →
      ∀ (ys : List Char), (xs ++ y :: ys).takeWhile p = xs := by
  intro xs
  induction xs with
  | nil =>
    intro _ y hy ys
    simp [List.takeWhile_cons, hy]
  | cons a xs' ih =>
    intro hall y hy ys
    have ha : p a = true := hall a (List.mem_cons_self a xs')
    simp [List.takeWhile_cons, ha,
      ih (fun x hx => hall x (List.mem_cons_of_mem a hx)) y hy ys]

/-- Claim C6 (amended): normalize_lib_name strips any bracketed feature
suffix and surrounding whitespace, but it does not case fold; in particular
normalize("SFML[audio]") is "SFML", which equals normalize("SFML") and
differs from normalize("sfml"). -/
theorem normalize_strips_suffix :
    (∀ s t : String, ('[' ∈ s.data → False) →
        normalize_lib_name (s ++ "[" ++ t) = String.mk (pyStrip s.data))
    ∧ normalize_lib_name "SFML[audio]" = "SFML"
    ∧ normalize_lib_name "SFML[audio]" = normalize_lib_name "SFML"
    ∧ normalize_lib_name "SFML[audio]" ≠ normalize_lib_name "sfml" := by
  refine ⟨?_, by decide, by decide, by decide⟩
  intro s t hs
  rw [normalize_lib_name]
  have hdata : (s ++ "[" ++ t).data = s.data ++ '[' :: t.data := by
    rw [String.data_append, String.data_append]
    simp [List.append_assoc]
  rw [hdata]
  rw [takeWhile_append_of_forall s.data
    (fun x hx => by
      simp only [decide_eq_true_eq]
      exact fun he => hs (he ▸ hx))
    '[' (by simp) t.data]

theorem normalize_strips_suffix_witness :
    normalize_lib_name ("SFML" ++ "[" ++ "audio]") = String.mk (pyStrip ("SFML").data) :=
  normalize_strips_suffix.1 "SFML" "audio]" (by decide)

/-- Claim C6 counterexample: normalize("SFML[audio]") and normalize("sfml")
differ, because normalize_lib_name performs no case fold. -/
theorem normalize_no_casefold_cex :
    normalize_lib_name "SFML[audio]" = "SFML"
    ∧ normalize_lib_name "sfml" = "sfml"
    ∧ normalize_lib_name "SFML[audio]" ≠ normalize_lib_name "sfml" := by
  decide

/-- Claim C8: with no manifest discoverable (find_project_root returns
None), the add command fails with the explicit not-in-a-project guard, but
the remove branch of main() has no such guard: root / "vcpkg.json" raises an
uncaught TypeError instead of the ProjectNotFound error the specification
requires.  Neither path mutates any file. -/
theorem remove_without_project_raises_type_error :
    add_library_cmd none "sfml" = Except.error PainErr.ProjectNotFound
    ∧ remove_library_cmd none "sfml" = Except.error PainErr.PyTypeError
    ∧ PainErr.PyTypeError ≠ PainErr.ProjectNotFound := by
  refine ⟨rfl, rfl, ?_⟩
  decide

/-- Claim C9: the vcpkg.json dependency update of add_library is idempotent:
repeating the identical call changes nothing, the entry count grows by at
most one, the previous entries survive in order as a prefix, and the update
either leaves the list untouched or appends exactly the one new raw entry. -/
theorem add_library_deps_idempotent (deps : List Dep) (lib : String) :
    add_library_deps (add_library_deps deps lib) lib = add_library_deps deps lib
    ∧ (add_library_deps deps lib).length ≤ deps.length + 1
    ∧ deps <+: add_library_deps deps lib
    ∧ (add_library_deps deps lib = deps
        ∨ add_library_deps deps lib = deps ++ [Dep.str lib]) := by
  by_cases hmem : deps.any (fun d => normalize_lib_name (depName d) == normalize_lib_name lib)
  · have hval : add_library_deps deps lib = deps := by
      rw [add_library_deps, if_pos hmem]
    exact ⟨by rw [hval, hval], by rw [hval]; exact Nat.le_succ _,
      by rw [hval], Or.inl hval⟩
  · have hval : add_library_deps deps lib = deps ++ [Dep.str lib] := by
      rw [add_library_deps, if_neg hmem]
    have hsecond : add_library_deps (deps ++ [Dep.str lib]) lib = deps ++ [Dep.str lib] := by
      have hany : (deps ++ [Dep.str lib]).any
          (fun d => normalize_lib_name (depName d) == normalize_lib_name lib) = true := by
        rw [List.any_append]
        simp [depName]
      rw [add_library_deps, if_pos hany]
    exact ⟨by rw [hval, hsecond], by rw [hval]; simp,
      by rw [hval]; exact List.prefix_append deps [Dep.str lib], Or.inr hval⟩

/-- Claim C10: on every guard run the vcpkg-configuration.json file is
deleted whenever it exists and either fails to parse or carries a
default-triplet key; it survives only when it exists, parses, and carries no
such key (a parsed non-object document also counts as lacking the key; note
the bare except even deletes the file when the parsed document is a scalar,
on which the membership test raises TypeError). -/
theorem cleanup_config_removal_conditions (cfg : Option (Option PyJsonTop)) :
    (∀ d, cfg = some (some d) → hasDefaultTripletKey d = true →
        cleanup_config_removes cfg = true)
    ∧ (cfg = some none → cleanup_config_removes cfg = true)
    ∧ (cleanup_config_removes cfg = false →
        cfg = none ∨ ∃ d, cfg = some (some d) ∧ hasDefaultTripletKey d = false) := by
  refine ⟨?_, ?_, ?_⟩
  · intro d hd hkey
    subst hd
    cases d with
    | dict keys =>
      simp only [hasDefaultTripletKey] at hkey
      simp only [cleanup_config_removes, py_membership]
      exact hkey
    | arr elems => simp [hasDefaultTripletKey] at hkey
    | str s => simp [hasDefaultTripletKey] at hkey
    | scalar => rfl
  · intro h
    subst h
    rfl
  · intro h
    rcases cfg with _ | ⟨_ | d⟩
    · exact Or.inl rfl
    · simp [cleanup_config_removes] at h
    · cases d with
      | dict keys =>
        refine Or.inr ⟨PyJsonTop.dict keys, rfl, ?_⟩
        simp only [cleanup_config_removes, py_membership] at h
        simp only [hasDefaultTripletKey]
        exact h
      | arr elems => exact Or.inr ⟨PyJsonTop.arr elems, rfl, rfl⟩
      | str s => exact Or.inr ⟨PyJsonTop.str s, rfl, rfl⟩
      | scalar => simp [cleanup_config_removes, py_membership] at h

theorem cleanup_config_removal_conditions_witness :
    cleanup_config_removes (some (some (PyJsonTop.dict ["default-triplet"]))) = true :=
  (cleanup_config_removal_conditions (some (some (PyJsonTop.dict ["default-triplet"])))).1
    (PyJsonTop.dict ["default-triplet"]) rfl (by decide)

theorem link_library_frame_witness :
    ∃ mid,
      lc "project(App)\n# --- PAIN DEPENDENCIES START ---\n\nfind_package(zlib CONFIG REQUIRED)\ntarget_link_libraries(App PRIVATE zlib::zlib)# --- PAIN DEPENDENCIES END ---\n"
        = lc "project(App)\n" ++ startMarker ++ mid ++ endMarker ++ lc "\n" :=
  (link_library_frame "zlib"
    (lc "project(App)\n# --- PAIN DEPENDENCIES START ---\n# --- PAIN DEPENDENCIES END ---\n")
    (lc "project(App)\n# --- PAIN DEPENDENCIES START ---\n\nfind_package(zlib CONFIG REQUIRED)\ntarget_link_libraries(App PRIVATE zlib::zlib)# --- PAIN DEPENDENCIES END ---\n")
    (by decide)).1
    (lc "project(App)\n") (lc "\n# --- PAIN DEPENDENCIES END ---\n") (lc "\n") (lc "\n")
    (by decide) (by decide)

/-- Claim C3 counterexample: with no markers present and the rendered
find-statement already occurring in the file, link_library returns with the
file byte-identical; in particular no managed region is appended at end of
file, against the claim's parenthetical. -/
theorem link_library_no_marker_cex :
    containsSub startMarker (lc "project(App)\nfind_package(zlib CONFIG REQUIRED)\n") = false
    ∧ link_library "zlib" (lc "project(App)\nfind_package(zlib CONFIG REQUIRED)\n")
        = some (lc "project(App)\nfind_package(zlib CONFIG REQUIRED)\n") := by
  decide

theorem link_library_appends_pair_witness :
    link_library "zlib"
      (lc "project(App)\n# --- PAIN DEPENDENCIES START ---\n# --- PAIN DEPENDENCIES END ---\n")
      = some (lc "project(App)\n" ++ startMarker
          ++ (lc "\n" ++ nlc ++ render_find_pkg "zlib" ++ nlc ++ render_link_libs (lc "App") "zlib")
          ++ endMarker ++ lc "\n") :=
  link_library_appends_pair "zlib"
    (lc "project(App)\n# --- PAIN DEPENDENCIES START ---\n# --- PAIN DEPENDENCIES END ---\n")
    (lc "project(App)\n") (lc "\n# --- PAIN DEPENDENCIES END ---\n") (lc "\n") (lc "\n")
    (lc "App") (by decide) (by decide) (by decide) (by decide)

/-- Claim C5 counterexample: the managed region (here the single newline
between the markers) does not contain the rendered find-statement, but the
statement occurs elsewhere in the file, so link_library is a no-op and no
pair is appended to the region. -/
theorem link_library_region_scope_cex :
    splitOnce startMarker
        (lc "project(App)\nfind_package(zlib CONFIG REQUIRED)\n# --- PAIN DEPENDENCIES START ---\n# --- PAIN DEPENDENCIES END ---\n")
      = some (lc "project(App)\nfind_package(zlib CONFIG REQUIRED)\n",
              lc "\n# --- PAIN DEPENDENCIES END ---\n")
    ∧ splitOnce endMarker (lc "\n# --- PAIN DEPENDENCIES END ---\n")
        = some (lc "\n", lc "\n")
    ∧ containsSub (render_find_pkg "zlib") (lc "\n") = false
    ∧ link_library "zlib"
        (lc "project(App)\nfind_package(zlib CONFIG REQUIRED)\n# --- PAIN DEPENDENCIES START ---\n# --- PAIN DEPENDENCIES END ---\n")
      = some (lc "project(App)\nfind_package(zlib CONFIG REQUIRED)\n# --- PAIN DEPENDENCIES START ---\n# --- PAIN DEPENDENCIES END ---\n") := by
  decide
